import Mathlib

/-!
Shallow embedding of `vagrant/tournament/tournament.py`, a Swiss-system
tournament engine backed by a PostgreSQL table of player rows.  The storage
collaborator is modelled as an explicit record of player rows and match rows;
each SQL statement of the source becomes a pure function on that record.
`Option` results model non-termination (the bye retry loop) and uncaught
runtime errors (the ZeroDivisionError in the tie-break pass).
-/

namespace Tournament

/-- A dynamically typed Python value, needed to model the membership test
`standings[idx][0] in prev_opponents` in `swiss_pairings`: `prev_opponents`
there is the raw `fetchall()` result, a list of one-element row tuples, and
Python compares the integer id against each row tuple. -/
inductive PyVal where
  | pyInt (n : Nat)
  | pyList (xs : List PyVal)

/-- Python's `n in xs` for an integer `n` scanned over a list: an `int`
compares equal only to an equal `int`, never to a tuple or list. -/
def pyIntMem (n : Nat) : List PyVal → Bool
  | [] => false
  | .pyInt m :: rest => n == m || pyIntMem n rest
  | .pyList _ :: rest => pyIntMem n rest

/-- One row of the `players` table.  Column defaults for a freshly inserted
row are modelled in `register_player`. -/
structure Player where
  player_id : Nat
  name : String
  tournament_id : Nat
  points : ℚ
  matches_played : Nat
  prev_opponents : List Nat
  bye : Bool
  opp_win : ℚ
deriving DecidableEq, Repr

/-- One row of the `matches` table, inserted by `report_match` and never
mutated. -/
structure MatchRow where
  winner : Nat
  loser : Nat
  tournament_id : Nat
  draw : Bool
deriving DecidableEq, Repr

/-- The storage collaborator: the two tables plus the serial-id counter the
database uses to assign `player_id` on insert. -/
structure DB where
  players : List Player
  match_rows : List MatchRow
  next_id : Nat
deriving DecidableEq, Repr

/-- Lexicographic comparison of character-code lists, modelling the SQL
ordering on the `name` column (ASCII collation). -/
def lexLe : List Nat → List Nat → Bool
  | [], _ => true
  | _ :: _, [] => false
  | a :: as, b :: bs => if a = b then lexLe as bs else decide (a < b)

/-- Ordering on names used by every `ORDER BY ... name` clause. -/
def nameLe (a b : String) : Bool :=
  lexLe (a.data.map Char.toNat) (b.data.map Char.toNat)

/-- Row ordering of `player_standings`'s query:
`ORDER BY points DESC, opp_win, name` (opp_win ascending). -/
def standingsLE (a b : Player) : Bool :=
  if a.points ≠ b.points then decide (b.points < a.points)
  else if a.opp_win ≠ b.opp_win then decide (a.opp_win < b.opp_win)
  else nameLe a.name b.name

/-- Row ordering of `final_rankings`'s standings query:
`ORDER BY points DESC, opp_win DESC, name`. -/
def finalLE (a b : Player) : Bool :=
  if a.points ≠ b.points then decide (b.points < a.points)
  else if a.opp_win ≠ b.opp_win then decide (b.opp_win < a.opp_win)
  else nameLe a.name b.name

/-- A row of the standings result set: the four selected columns
`player_id, name, points, matches_played`. -/
structure SRow where
  player_id : Nat
  name : String
  points : ℚ
  matches_played : Nat
deriving DecidableEq, Repr, Inhabited

/-- Projection of a player row onto the standings columns. -/
def toSRow (p : Player) : SRow :=
  ⟨p.player_id, p.name, p.points, p.matches_played⟩

/-- `player_standings()`: rows of the current tournament ordered by
`points DESC, opp_win, name`, projected to the four selected columns. -/
def player_standings (db : DB) (t : Nat) : List SRow :=
  (List.insertionSort (fun a b => standingsLE a b = true)
      (db.players.filter (fun p => p.tournament_id == t))).map toSRow

/-- Modelled from the spec: the SQL schema file (`tournament.sql`) is not in
the repository, so the column defaults of a freshly inserted player row come
from the spec.  Section 8's round-trip property gives score `0.0` and
`matchesPlayed` `0`; section 3 gives the bye flag initially unset and
`opp_win` a computed value starting at `0`.  The `INSERT` in
`register_player` itself supplies `name`, `tournament_id` and an empty
`prev_opponents` array, and the database assigns the serial id. -/
def freshPlayer (id : Nat) (name : String) (t : Nat) : Player :=
  ⟨id, name, t, 0, 0, [], false, 0⟩

/-- `register_player(name)`: inserts a fresh row for the current
tournament; the serial id counter advances. -/
def register_player (db : DB) (name : String) (t : Nat) : DB :=
  { db with players := db.players ++ [freshPlayer db.next_id name t],
            next_id := db.next_id + 1 }

/-- `report_match(winner, loser, draw)`.  Non-draw: the loser row gains one
match played and the winner appended to its history, then the winner row
gains one point, one match played and the loser appended.  Draw: the single
`UPDATE` inside `for player in range(0, 1)` (one iteration) adds half a
point to both rows and touches nothing else.  A match row is appended
unconditionally. -/
def report_match (db : DB) (winner loser : Nat) (draw : Bool) (t : Nat) : DB :=
  let players :=
    if !draw then
      (db.players.map (fun p =>
        if p.player_id = loser ∧ p.tournament_id = t then
          { p with matches_played := p.matches_played + 1,
                   prev_opponents := p.prev_opponents ++ [winner] }
        else p)).map (fun p =>
        if p.player_id = winner ∧ p.tournament_id = t then
          { p with points := p.points + 1,
                   matches_played := p.matches_played + 1,
                   prev_opponents := p.prev_opponents ++ [loser] }
        else p)
    else
      db.players.map (fun p =>
        if (p.player_id = winner ∨ p.player_id = loser) ∧ p.tournament_id = t then
          { p with points := p.points + 1/2 }
        else p)
  { db with players := players,
            match_rows := db.match_rows ++ [⟨winner, loser, t, draw⟩] }

/-- `assign_bye(player)`: sets the bye flag and adds a full point to the
matching row of the current tournament. -/
def assign_bye (db : DB) (player : Nat) (t : Nat) : DB :=
  { db with players := db.players.map (fun p =>
      if p.player_id = player ∧ p.tournament_id = t then
        { p with bye := true, points := p.points + 1 }
      else p) }

/-- The `fetchall()` result of
`SELECT prev_opponents FROM players WHERE player_id = %s`: a list of
one-element row tuples, each wrapping the integer array.  `swiss_pairings`
uses this raw value directly as the right operand of `in`. -/
def fetch_prev_opponents (db : DB) (pid : Nat) : List PyVal :=
  (db.players.filter (fun p => p.player_id == pid)).map
    (fun p => .pyList [.pyList (p.prev_opponents.map .pyInt)])

/-- `execute_query("Select bye from players WHERE player_id = %s")[0][0]`:
the bye flag of the first row with the given id (the source query has no
tournament filter).  `false` stands for the unreachable empty result set. -/
def fetch_bye (db : DB) (pid : Nat) : Bool :=
  ((db.players.filter (fun p => p.player_id == pid)).map (fun p => p.bye)).headD false

/-- Fuel-indexed form of the inner `while True` scan of `swiss_pairings`:
starting from an index, keep advancing while the candidate's id is `in` the
fetched `prev_opponents` rows and the index is not the last one.  The
recursion is structural on the fuel so that concrete runs reduce in the
kernel; `scanIdx` supplies fuel that never runs out. -/
def scanIdxF (prev : List PyVal) (standings : List SRow) : Nat → Nat → Nat
  | idx, 0 => idx
  | idx, fuel + 1 =>
    if pyIntMem (standings.getD idx default).player_id prev ∧
        idx < standings.length - 1 then
      scanIdxF prev standings (idx + 1) fuel
    else idx

/-- The inner scan of `swiss_pairings`.  On the source's reachable states
the index never exceeds `len - 1`, so the guard `idx != len(standings)-1`
is modelled as `idx < standings.length - 1`; the fuel
`standings.length - idx` strictly dominates the number of iterations the
guard allows. -/
def scanIdx (prev : List PyVal) (standings : List SRow) (idx : Nat) : Nat :=
  scanIdxF prev standings idx (standings.length - idx)

/-- One entry of the returned pairing list, the flattened
`[id1, name1, id2, name2]`. -/
structure Pairing where
  id1 : Nat
  name1 : String
  id2 : Nat
  name2 : String
deriving DecidableEq, Repr

/-- Fuel-indexed form of the outer `while len(standings) > 1` loop of
`swiss_pairings`: pair the top entry with the entry found by the forward
scan, pop both (`pop(idx)` then `pop(0)`), repeat.  Structural on the fuel
so that concrete runs reduce in the kernel; each iteration shrinks the list
by at least one, so fuel equal to the list length never runs out. -/
def pairLoopF (db : DB) : Nat → List SRow → List Pairing
  | 0, _ => []
  | _ + 1, [] => []
  | _ + 1, [_] => []
  | fuel + 1, a :: b :: rest =>
    let standings := a :: b :: rest
    let prev := fetch_prev_opponents db a.player_id
    let idx := scanIdx prev standings 1
    let si := standings.getD idx default
    ⟨a.player_id, a.name, si.player_id, si.name⟩ ::
      pairLoopF db fuel ((standings.eraseIdx idx).eraseIdx 0)

/-- The outer pairing loop of `swiss_pairings`. -/
def pairLoop (db : DB) (standings : List SRow) : List Pairing :=
  pairLoopF db standings.length standings

/-- The `while prev_bye` retry loop of the odd-count branch.  `oracle k` is
the contents of `standings` after the k-th `random.shuffle`; each pass
takes `standings[0]` and re-reads its bye flag, exiting only when the flag
is false.  `none` models a run that has not exited within `fuel`
iterations; a loop that returns `none` for every `fuel` never terminates.
(The `none` on an empty shuffle result stands for the IndexError that
`standings[0]` would raise, unreachable for odd counts.) -/
def byeLoop (db : DB) (oracle : Nat → List SRow) : Nat → Nat → Option SRow
  | _, 0 => none
  | k, fuel + 1 =>
    match (oracle k).head? with
    | none => none
    | some bp =>
      if fetch_bye db bp.player_id then byeLoop db oracle (k + 1) fuel
      else some bp

/-- `swiss_pairings()`.  Odd count: run the bye retry loop, refetch the
standings, `remove` the chosen row, `assign_bye` to it, then run the
pairing loop against the mutated storage.  Even count: run the pairing loop
directly.  The result carries the pairing list, the bye row if one was
chosen, and the storage state after any `assign_bye`. -/
def swiss_pairings (db : DB) (t : Nat) (oracle : Nat → List SRow) (fuel : Nat) :
    Option (List Pairing × Option SRow × DB) :=
  let standings := player_standings db t
  if standings.length % 2 ≠ 0 then
    match byeLoop db oracle 0 fuel with
    | none => none
    | some bp =>
      let s2 := (player_standings db t).erase bp
      let db2 := assign_bye db bp.player_id t
      some (pairLoop db2 s2, some bp, db2)
  else
    some (pairLoop db standings, none, db)

/-- `execute_query("SELECT points FROM players WHERE player_id = %s")[0][0]`:
points of the first row with the given id; `0` stands for the unreachable
empty result set (every id recorded in a history column was registered). -/
def fetch_points (db : DB) (pid : Nat) : ℚ :=
  ((db.players.filter (fun p => p.player_id == pid)).map (fun p => p.points)).headD 0

/-- One step of the tie-break pass: `float(player_sum)/len(opponents)`.
`none` models the uncaught ZeroDivisionError raised when the opponent list
is empty. -/
def opp_strength (db : DB) (opponents : List Nat) : Option ℚ :=
  if opponents.length = 0 then none
  else some ((opponents.map (fetch_points db)).sum / opponents.length)

/-- `UPDATE players SET opp_win = %s WHERE player_id = %s` (no tournament
filter in the source query). -/
def set_opp_win (db : DB) (pid : Nat) (v : ℚ) : DB :=
  { db with players := db.players.map (fun p =>
      if p.player_id = pid then { p with opp_win := v } else p) }

/-- Row ordering of the tie-break pass's query:
`ORDER BY points DESC, name`. -/
def updateOrderLE (a b : Player) : Bool :=
  if a.points ≠ b.points then decide (b.points < a.points) else nameLe a.name b.name

/-- The result set of `SELECT player_id, prev_opponents FROM players WHERE
tournament_id = %s ORDER BY points DESC, name`: this pass, unlike the final
standings query, is scoped to the current tournament. -/
def rankingPlayers (db : DB) (t : Nat) : List (Nat × List Nat) :=
  (List.insertionSort (fun a b => updateOrderLE a b = true)
      (db.players.filter (fun p => p.tournament_id == t))).map
    (fun p => (p.player_id, p.prev_opponents))

/-- The tie-break update loop of `final_rankings`: for each selected player
in order, compute opponent strength against the current storage and write
it to `opp_win`.  `none` propagates the ZeroDivisionError of a player with
an empty history. -/
def updateLoop (db : DB) : List (Nat × List Nat) → Option DB
  | [] => some db
  | (pid, opps) :: rest =>
    match opp_strength db opps with
    | none => none
    | some v => updateLoop (set_opp_win db pid v) rest

/-- A row of the final standings result set: `name, points, opp_win`. -/
structure FRow where
  name : String
  points : ℚ
  opp_win : ℚ
deriving DecidableEq, Repr, Inhabited

/-- The final standings query of `final_rankings`:
`SELECT name, points, opp_win FROM players ORDER BY points DESC, opp_win
DESC, name` — note the absence of any `WHERE tournament_id` clause: every
row of the table is selected. -/
def final_standings (db : DB) : List FRow :=
  (List.insertionSort (fun a b => finalLE a b = true) db.players).map
    (fun p => ⟨p.name, p.points, p.opp_win⟩)

/-- The printing loop of `final_rankings`, carried state
`(ties, rank, last_record)` initialised to `(1, 0, [0, 0])`: a record equal
to the previous one keeps the current rank and bumps the tie counter, a new
record advances the rank by the tie counter.  The output pairs each row
with the rank number printed for it. -/
def rankLoop : List FRow → Nat → Nat → ℚ × ℚ → List (Nat × FRow)
  | [], _, _, _ => []
  | r :: rs, ties, rank, last =>
    if (r.points, r.opp_win) ≠ last then
      (rank + ties, r) :: rankLoop rs 1 (rank + ties) (r.points, r.opp_win)
    else
      (rank, r) :: rankLoop rs (ties + 1) rank (r.points, r.opp_win)

/-- The ranks printed by `final_rankings` for a given standings list. -/
def rankList (l : List FRow) : List (Nat × FRow) :=
  rankLoop l 1 0 (0, 0)

/-- `final_rankings()`: run the tournament-scoped tie-break pass, then rank
the unfiltered final standings.  `none` propagates the ZeroDivisionError. -/
def final_rankings (db : DB) (t : Nat) : Option (List (Nat × FRow)) :=
  match updateLoop db (rankingPlayers db t) with
  | none => none
  | some db2 => some (rankList (final_standings db2))

/-- Competition ranking as the spec words it, for a standings list whose
equal `(score, opponent-strength)` records are contiguous: every record
equal to the previous one shares its rank, the first record of each new
run takes the 1-based position at which it stands, so the rank following a
run equals the run's rank plus the number of players that shared it, and
the first rank is 1. -/
def compRanksAux (last : ℚ × ℚ) (rank pos : Nat) : List FRow → List (Nat × FRow)
  | [] => []
  | r :: rs =>
    let rank2 := if (r.points, r.opp_win) = last then rank else pos
    (rank2, r) :: compRanksAux (r.points, r.opp_win) rank2 (pos + 1) rs

/-- Competition ranking of a whole standings list: the top entry holds rank
1. -/
def compRanks : List FRow → List (Nat × FRow)
  | [] => []
  | r :: rs => (1, r) :: compRanksAux (r.points, r.opp_win) 1 2 rs

/-- The id-and-name projection of a pairing list, flattened in pairing
order: the players the returned pairs cover, each occurrence listed. -/
def pairFlat (ps : List Pairing) : List (Nat × String) :=
  ps.flatMap (fun p => [(p.id1, p.name1), (p.id2, p.name2)])

/-- The data-model invariant of section 3 of the spec: a player's recorded
match count equals the length of their opponent history. -/
def matchesInv (p : Player) : Prop :=
  p.matches_played = p.prev_opponents.length

/-! ### Example storage states -/

/-- Four players of one tournament with equal scores, named so the
standings order is A, B, C, D, where A and B sit in each other's opponent
histories (as do C and D). -/
def dbRepeat : DB :=
  { players := [
      ⟨1, "A", 0, 0, 1, [2], false, 0⟩,
      ⟨2, "B", 0, 0, 1, [1], false, 0⟩,
      ⟨3, "C", 0, 0, 1, [4], false, 0⟩,
      ⟨4, "D", 0, 0, 1, [3], false, 0⟩],
    match_rows := [], next_id := 5 }

/-- Two freshly registered players, no matches yet. -/
def dbDraw : DB :=
  { players := [⟨1, "A", 0, 0, 0, [], false, 0⟩, ⟨2, "B", 0, 0, 0, [], false, 0⟩],
    match_rows := [], next_id := 3 }

/-- Three players who have all already received a bye: the exhausted bye
pool of an odd-count round. -/
def dbExhausted : DB :=
  { players := [
      ⟨1, "A", 0, 1, 0, [], true, 0⟩,
      ⟨2, "B", 0, 1, 0, [], true, 0⟩,
      ⟨3, "C", 0, 1, 0, [], true, 0⟩],
    match_rows := [], next_id := 4 }

/-- One registered player with no matches played: an empty opponent
history. -/
def dbNoOpp : DB :=
  { players := [⟨1, "A", 0, 0, 0, [], false, 0⟩], match_rows := [], next_id := 2 }

/-- Two players tied at score 0 whose only opponents also have score 0, so
both final-standings records come out as (0, 0). -/
def dbZeroTop : DB :=
  { players := [⟨1, "A", 0, 0, 1, [2], false, 0⟩, ⟨2, "B", 0, 0, 1, [1], false, 0⟩],
    match_rows := [], next_id := 3 }

/-- Three players with full mutual histories and scores 2, 2, 0: the final
table has two players tied at the top. -/
def dbRanked : DB :=
  { players := [
      ⟨1, "A", 0, 2, 2, [2, 3], false, 0⟩,
      ⟨2, "B", 0, 2, 2, [1, 3], false, 0⟩,
      ⟨3, "C", 0, 0, 2, [1, 2], false, 0⟩],
    match_rows := [], next_id := 4 }

/-- Four freshly registered players: an even pool with no history. -/
def dbEven : DB :=
  { players := [
      ⟨1, "A", 0, 0, 0, [], false, 0⟩,
      ⟨2, "B", 0, 0, 0, [], false, 0⟩,
      ⟨3, "C", 0, 0, 0, [], false, 0⟩,
      ⟨4, "D", 0, 0, 0, [], false, 0⟩],
    match_rows := [], next_id := 5 }

/-- No players registered at all. -/
def dbEmpty : DB := { players := [], match_rows := [], next_id := 1 }

/-- Exactly one registered player, never byed. -/
def dbSingle : DB :=
  { players := [⟨1, "A", 0, 0, 0, [], false, 0⟩], match_rows := [], next_id := 2 }

/-- Three freshly registered players: an odd pool with no byes taken. -/
def dbOdd : DB :=
  { players := [
      ⟨1, "A", 0, 0, 0, [], false, 0⟩,
      ⟨2, "B", 0, 0, 0, [], false, 0⟩,
      ⟨3, "C", 0, 0, 0, [], false, 0⟩],
    match_rows := [], next_id := 4 }

/-- Players of two different tournaments in one storage state: tournament
1 holds P1 and P2 with mutual history, tournament 2 holds Q1 with a stale
opponent-strength value of 7. -/
def dbTwoTournaments : DB :=
  { players := [
      ⟨1, "P1", 1, 1, 1, [2], false, 0⟩,
      ⟨2, "P2", 1, 0, 1, [1], false, 0⟩,
      ⟨3, "Q1", 2, 5, 0, [], true, 7⟩],
    match_rows := [], next_id := 4 }

/-! ### General lemmas about the pairing engine -/

/-- Popping the scanned index and then index 0 shrinks a nonempty list:
the bound behind the pairing loop's fuel. -/
theorem length_eraseIdx_eraseIdx_lt (l : List SRow) (i : Nat) (h : 0 < l.length) :
    ((l.eraseIdx i).eraseIdx 0).length < l.length := by
  have h1 : (l.eraseIdx i).length ≤ l.length := by
    have := List.length_eraseIdx (l := l) (i := i)
    by_cases hi : i < l.length
    · simp [hi] at this; omega
    · rw [List.eraseIdx_of_length_le (by omega)]
  match hE : l.eraseIdx i with
  | [] =>
    simpa [hE] using h
  | x :: xs =>
    have h2 : (x :: xs).length ≤ l.length := hE ▸ h1
    have hxs : ((x :: xs).eraseIdx 0).length = xs.length := by simp
    simp only [List.eraseIdx_cons_zero] at *
    simp only [List.length_cons] at h2
    omega

/-- An integer is never `in` the raw `fetchall()` rows of the
`prev_opponents` query: every element of that list is a row tuple, and in
Python an `int` never compares equal to a tuple.  This is the slip that
disables the no-repeat-opponent constraint. -/
theorem pyIntMem_fetch_prev_opponents (db : DB) (pid n : Nat) :
    pyIntMem n (fetch_prev_opponents db pid) = false := by
  unfold fetch_prev_opponents
  induction db.players.filter (fun p => p.player_id == pid) with
  | nil => rfl
  | cons p rest ih => simpa [pyIntMem] using ih

/-- The forward scan stops immediately when the membership test fails at
its starting index. -/
theorem scanIdx_eq_self (prev : List PyVal) (standings : List SRow) (idx : Nat)
    (h : pyIntMem (standings.getD idx default).player_id prev = false) :
    scanIdx prev standings idx = idx := by
  unfold scanIdx
  cases standings.length - idx with
  | zero => rfl
  | succ fuel =>
    simp only [List.getD, List.get?_eq_getElem?] at h
    simp [scanIdxF, h]

/-- Spent fuel is irrelevant as long as it covers the list length: the
fuel-indexed loop computes the source's unbounded `while` loop. -/
theorem pairLoopF_congr (db : DB) :
    ∀ (f1 : Nat) (f2 : Nat) (l : List SRow), l.length ≤ f1 → l.length ≤ f2 →
      pairLoopF db f1 l = pairLoopF db f2 l := by
  intro f1
  induction f1 with
  | zero =>
    intro f2 l h1 _
    have : l = [] := List.eq_nil_of_length_eq_zero (by omega)
    subst this
    cases f2 <;> rfl
  | succ g1 ih =>
    intro f2 l h1 h2
    match l with
    | [] => cases f2 <;> rfl
    | [x] =>
      match f2 with
      | f2 + 1 => rfl
    | a :: b :: rest =>
      match f2 with
      | g2 + 1 =>
        simp only [pairLoopF]
        refine congrArg _ ?_
        have hlt := length_eraseIdx_eraseIdx_lt (a :: b :: rest)
          (scanIdx (fetch_prev_opponents db a.player_id) (a :: b :: rest) 1)
          (by simp)
        exact ih g2 _ (by simp at hlt h1 ⊢; omega) (by simp at hlt h2 ⊢; omega)

/-- One iteration of the pairing loop as the source actually runs: the
membership test against the raw rows is always false, so the top entry is
paired with the entry directly below it and both are popped. -/
theorem pairLoop_cons_cons (db : DB) (a b : SRow) (rest : List SRow) :
    pairLoop db (a :: b :: rest) =
      ⟨a.player_id, a.name, b.player_id, b.name⟩ :: pairLoop db rest := by
  have hscan : scanIdx (fetch_prev_opponents db a.player_id) (a :: b :: rest) 1 = 1 :=
    scanIdx_eq_self _ _ _ (by simp [pyIntMem_fetch_prev_opponents])
  unfold pairLoop
  simp only [List.length_cons, pairLoopF, hscan]
  refine congrArg₂ _ rfl ?_
  simpa using pairLoopF_congr db (rest.length + 1) rest.length rest (by omega) le_rfl

/-- A pool of zero or one players produces no pairs. -/
theorem pairLoop_short (db : DB) (l : List SRow) (h : l.length ≤ 1) :
    pairLoop db l = [] := by
  match l with
  | [] => rfl
  | [x] => rfl

/-- On an even pool the pairing loop pairs adjacent entries all the way
down: it returns half as many pairs as players, and the flattened pairs
list the pool's players exactly, in standings order. -/
theorem pairLoop_even (db : DB) :
    ∀ (n : Nat) (l : List SRow), l.length ≤ n → l.length % 2 = 0 →
      (pairLoop db l).length = l.length / 2 ∧
      pairFlat (pairLoop db l) = l.map (fun r => (r.player_id, r.name)) := by
  intro n
  induction n with
  | zero =>
    intro l h1 _
    have : l = [] := List.eq_nil_of_length_eq_zero (by omega)
    subst this
    exact ⟨rfl, rfl⟩
  | succ m ih =>
    intro l h1 h2
    match l with
    | [] => exact ⟨rfl, rfl⟩
    | [x] => simp at h2
    | a :: b :: rest =>
      have hr : rest.length ≤ m := by simp at h1; omega
      have hre : rest.length % 2 = 0 := by simp at h2 ⊢; omega
      obtain ⟨ihl, ihf⟩ := ih rest hr hre
      rw [pairLoop_cons_cons]
      constructor
      · simp only [List.length_cons, ihl]
        omega
      · simp [pairFlat] at ihf ⊢
        exact ihf

/-! ### Lemmas about the bye loop and the standings -/

/-- Every standings row projects some stored player row of the queried
tournament. -/
theorem mem_player_standings (db : DB) (t : Nat) (r : SRow)
    (h : r ∈ player_standings db t) :
    ∃ p ∈ db.players, p.tournament_id = t ∧ toSRow p = r := by
  unfold player_standings at h
  obtain ⟨p, hp, hpr⟩ := List.mem_map.mp h
  have hp2 : p ∈ db.players.filter (fun p => p.tournament_id == t) :=
    (List.perm_insertionSort _ _).mem_iff.mp hp
  have hmf := List.mem_filter.mp hp2
  exact ⟨p, hmf.1, by simpa using hmf.2, hpr⟩

/-- When some stored row carries the queried id and every stored row has
its bye flag set, the bye query reads back `true`. -/
theorem fetch_bye_true (db : DB) (pid : Nat)
    (hex : ∃ p ∈ db.players, p.player_id = pid)
    (hall : ∀ p ∈ db.players, p.bye = true) :
    fetch_bye db pid = true := by
  unfold fetch_bye
  obtain ⟨p, hp, hpid⟩ := hex
  have hpf : p ∈ db.players.filter (fun p => p.player_id == pid) :=
    List.mem_filter.mpr ⟨hp, by simpa using hpid⟩
  cases hF : db.players.filter (fun p => p.player_id == pid) with
  | nil => rw [hF] at hpf; simp at hpf
  | cons q rest =>
    have hqf : q ∈ db.players.filter (fun p => p.player_id == pid) := by
      rw [hF]; exact List.mem_cons_self q rest
    have hq : q ∈ db.players := (List.mem_filter.mp hqf).1
    simp [hall q hq]

/-- A row the bye retry loop settles on has its bye flag unset: the loop
exits only on reading `false`. -/
theorem byeLoop_some_bye_false (db : DB) (oracle : Nat → List SRow) :
    ∀ (fuel k : Nat) (bp : SRow), byeLoop db oracle k fuel = some bp →
      fetch_bye db bp.player_id = false := by
  intro fuel
  induction fuel with
  | zero => intro k bp h; simp [byeLoop] at h
  | succ n ih =>
    intro k bp h
    unfold byeLoop at h
    cases hh : (oracle k).head? with
    | none => rw [hh] at h; simp at h
    | some c =>
      simp only [hh] at h
      by_cases hb : fetch_bye db c.player_id = true
      · rw [if_pos hb] at h
        exact ih (k + 1) bp h
      · rw [if_neg hb] at h
        cases h
        simpa using hb

/-- A row the bye retry loop settles on comes from the standings, as each
shuffle permutes them. -/
theorem byeLoop_some_mem (db : DB) (oracle : Nat → List SRow) (s : List SRow)
    (hperm : ∀ k, (oracle k).Perm s) :
    ∀ (fuel k : Nat) (bp : SRow), byeLoop db oracle k fuel = some bp → bp ∈ s := by
  intro fuel
  induction fuel with
  | zero => intro k bp h; simp [byeLoop] at h
  | succ n ih =>
    intro k bp h
    unfold byeLoop at h
    cases hh : (oracle k).head? with
    | none => rw [hh] at h; simp at h
    | some c =>
      simp only [hh] at h
      by_cases hb : fetch_bye db c.player_id = true
      · rw [if_pos hb] at h
        exact ih (k + 1) bp h
      · rw [if_neg hb] at h
        cases h
        exact (hperm k).mem_iff.mp (List.mem_of_mem_head? hh)

/-- When every shuffled candidate reads back a set bye flag, the retry loop
never exits, whatever the fuel: the source loop runs forever. -/
theorem byeLoop_none_of_all_bye (db : DB) (oracle : Nat → List SRow) (s : List SRow)
    (hperm : ∀ k, (oracle k).Perm s)
    (hs : ∀ r ∈ s, fetch_bye db r.player_id = true) :
    ∀ (fuel k : Nat), byeLoop db oracle k fuel = none := by
  intro fuel
  induction fuel with
  | zero => intro k; rfl
  | succ n ih =>
    intro k
    unfold byeLoop
    cases hh : (oracle k).head? with
    | none => rfl
    | some c =>
      have hc : c ∈ s := (hperm k).mem_iff.mp (List.mem_of_mem_head? hh)
      simp only [hh]
      rw [if_pos (hs c hc)]
      exact ih (k + 1)

/-! ### Lemmas about the ranking engine -/

/-- The tie-break update loop hits the ZeroDivisionError as soon as its
worklist contains a player with an empty opponent list. -/
theorem updateLoop_none (l : List (Nat × List Nat)) :
    ∀ (db : DB), (∃ pr ∈ l, pr.2 = []) → updateLoop db l = none := by
  induction l with
  | nil => intro db hex; simp at hex
  | cons hd rest ih =>
    intro db hex
    obtain ⟨pid, opps⟩ := hd
    cases hopp : opps with
    | nil => simp [updateLoop, opp_strength]
    | cons o os =>
      obtain ⟨pr, hpr, hpr2⟩ := hex
      rcases List.mem_cons.mp hpr with heq | hmem
      · exfalso
        rw [heq] at hpr2
        simp [hopp] at hpr2
      · subst hopp
        simp only [updateLoop, opp_strength]
        rw [if_neg (by simp)]
        exact ih _ ⟨pr, hmem, hpr2⟩

/-- The printing loop agrees with competition ranking continued from a
previous record, provided the carried position is the rank plus the tie
counter — the loop's actual invariant. -/
theorem rankLoop_eq_compRanksAux :
    ∀ (l : List FRow) (ties rank : Nat) (last : ℚ × ℚ),
      rankLoop l ties rank last = compRanksAux last rank (rank + ties) l := by
  intro l
  induction l with
  | nil => intro ties rank last; rfl
  | cons r rs ih =>
    intro ties rank last
    by_cases h : (r.points, r.opp_win) = last
    · simp only [rankLoop, compRanksAux]
      rw [if_neg (not_not_intro h), if_pos h, ih, Nat.add_assoc]
    · simp only [rankLoop, compRanksAux]
      rw [if_pos h, if_neg h, ih]

/-- The printing loop annotates the rows it is given without reordering or
dropping any. -/
theorem rankLoop_map_snd :
    ∀ (l : List FRow) (ties rank : Nat) (last : ℚ × ℚ),
      (rankLoop l ties rank last).map Prod.snd = l := by
  intro l
  induction l with
  | nil => intro ties rank last; rfl
  | cons r rs ih =>
    intro ties rank last
    by_cases h : (r.points, r.opp_win) ≠ last
    · simp only [rankLoop, if_pos h, List.map_cons, ih]
    · simp only [rankLoop, if_neg h, List.map_cons, ih]

/-- The ranks printed for a standings list annotate exactly that list. -/
theorem rankList_map_snd (l : List FRow) : (rankList l).map Prod.snd = l :=
  rankLoop_map_snd l 1 0 (0, 0)

/-- The first printed entry carries the first standings row. -/
theorem rankList_head (r : FRow) (rs : List FRow) :
    ∃ n, (rankList (r :: rs)).head? = some (n, r) := by
  unfold rankList
  by_cases h : (r.points, r.opp_win) ≠ ((0 : ℚ), (0 : ℚ))
  · refine ⟨1, ?_⟩
    simp only [rankLoop]
    rw [if_pos h]
    rfl
  · refine ⟨0, ?_⟩
    simp only [rankLoop]
    rw [if_neg h]
    rfl

/-- Away from the sentinel record (0, 0) at the head, the printing loop
computes competition ranking. -/
theorem rankList_eq_compRanks_of_head (l : List FRow)
    (h : ∀ r, l.head? = some r → (r.points, r.opp_win) ≠ ((0 : ℚ), (0 : ℚ))) :
    rankList l = compRanks l := by
  cases l with
  | nil => rfl
  | cons r rs =>
    have hr := h r rfl
    unfold rankList compRanks
    simp only [rankLoop, if_pos hr]
    rw [rankLoop_eq_compRanksAux]

/-! ### Claim theorems -/

/-- Claim C1: the spec requires the top standings entry to be paired with
the nearest lower entry that is not a recorded past opponent, so with
standings A, B, C, D at equal scores and A–B already played, the pairing
must be (A,C), (B,D).  The code instead pairs (A,B), (C,D): the membership
test `standings[idx][0] in prev_opponents` compares the integer id against
the raw fetchall row tuples and is never true, so past opponents are never
skipped. -/
theorem swiss_pairings_pairs_past_opponents :
    player_standings dbRepeat 0 =
      [⟨1, "A", 0, 1⟩, ⟨2, "B", 0, 1⟩, ⟨3, "C", 0, 1⟩, ⟨4, "D", 0, 1⟩] ∧
    (2 : Nat) ∈ (dbRepeat.players.headD (freshPlayer 0 "" 0)).prev_opponents ∧
    swiss_pairings dbRepeat 0 (fun _ => []) 1 =
      some ([⟨1, "A", 2, "B"⟩, ⟨3, "C", 4, "D"⟩], none, dbRepeat) := by
  refine ⟨?_, ?_, ?_⟩ <;> with_unfolding_all decide

/-- Claim C2: the spec requires a drawn match to update `matches_played`
and both opponent histories exactly as a decisive one does, so that N
reported matches contribute 2N match credits.  Reporting a draw between
two fresh players leaves both of their `matches_played` at 0 and both
histories empty — the draw branch adds only half a point to each score —
so after this one recorded match the summed `matches_played` is 0, not
2. -/
theorem report_match_draw_skips_history :
    (report_match dbDraw 1 2 true 0).players =
      [⟨1, "A", 0, 1/2, 0, [], false, 0⟩, ⟨2, "B", 0, 1/2, 0, [], false, 0⟩] ∧
    (report_match dbDraw 1 2 true 0).match_rows = [⟨1, 2, 0, true⟩] ∧
    ((report_match dbDraw 1 2 true 0).players.map (fun p => p.matches_played)).sum = 0 ∧
    2 * (report_match dbDraw 1 2 true 0).match_rows.length = 2 := by
  refine ⟨?_, ?_, ?_, ?_⟩ <;> with_unfolding_all decide

/-- Claim C3: the spec requires `swiss_pairings` to terminate on every
input, resolving an exhausted bye pool deterministically by a fallback or
a fatal error.  With an odd player count and every stored player's bye
flag set, the bye retry loop instead reshuffles and rereads forever:
whatever iteration bound is allowed, the call has not returned. -/
theorem swiss_pairings_diverges_on_exhausted_pool
    (db : DB) (t : Nat) (oracle : Nat → List SRow)
    (hodd : (player_standings db t).length % 2 = 1)
    (hperm : ∀ k, (oracle k).Perm (player_standings db t))
    (hbye : ∀ p ∈ db.players, p.bye = true) :
    ∀ fuel, swiss_pairings db t oracle fuel = none := by
  intro fuel
  have hs : ∀ r ∈ player_standings db t, fetch_bye db r.player_id = true := by
    intro r hr
    obtain ⟨p, hp, hpt, hpr⟩ := mem_player_standings db t r hr
    exact fetch_bye_true db r.player_id ⟨p, hp, by rw [← hpr]; rfl⟩ hbye
  have hnone := byeLoop_none_of_all_bye db oracle _ hperm hs fuel 0
  unfold swiss_pairings
  rw [if_pos (by omega)]
  simp only [hnone]

/-- Witness for claim C3 at a concrete exhausted pool: three players, all
already byed, and five rounds of retry budget; the call makes no
progress. -/
theorem swiss_pairings_diverges_on_exhausted_pool_witness :
    swiss_pairings dbExhausted 0 (fun _ => player_standings dbExhausted 0) 5 = none :=
  swiss_pairings_diverges_on_exhausted_pool dbExhausted 0 _
    (by decide) (fun _ => List.Perm.refl _) (by decide) 5

/-- Claim C4: the spec requires the tie-break pass to give zero-opponent
players a fixed default and never divide by zero, with `final_rankings`
succeeding on any player set.  The code computes
`float(player_sum)/len(opponents)` unguarded, so whenever the queried
tournament holds a player with an empty opponent history the pass raises
ZeroDivisionError and `final_rankings` fails. -/
theorem final_rankings_crashes_on_zero_opponents
    (db : DB) (t : Nat) (p : Player) (hp : p ∈ db.players)
    (ht : p.tournament_id = t) (hemp : p.prev_opponents = []) :
    final_rankings db t = none := by
  have hmem : (p.player_id, p.prev_opponents) ∈ rankingPlayers db t := by
    unfold rankingPlayers
    refine List.mem_map.mpr ⟨p, ?_, rfl⟩
    exact (List.perm_insertionSort _ _).mem_iff.mpr
      (List.mem_filter.mpr ⟨hp, by simp [ht]⟩)
  have hu := updateLoop_none (rankingPlayers db t) db
    ⟨(p.player_id, p.prev_opponents), hmem, hemp⟩
  unfold final_rankings
  simp only [hu]

/-- Witness for claim C4: one registered player who played no matches; the
ranking pass fails on the division by their zero opponent count. -/
theorem final_rankings_crashes_on_zero_opponents_witness :
    final_rankings dbNoOpp 0 = none :=
  final_rankings_crashes_on_zero_opponents dbNoOpp 0
    ⟨1, "A", 0, 0, 0, [], false, 0⟩ (by decide) rfl rfl

/-- Counterexample to claim C5: ranking a storage state whose sorted
standings open with the record (score 0, opponent-strength 0) prints rank
0 for the whole leading group, not the shared rank 1 that competition
ranking assigns: the loop's sentinel `last_record = [0, 0]` collides with
the real record, so the first group never triggers the rank update. -/
theorem final_rankings_sentinel_rank_zero :
    final_rankings dbZeroTop 0 =
      some [(0, ⟨"A", 0, 0⟩), (0, ⟨"B", 0, 0⟩)] ∧
    compRanks [⟨"A", 0, 0⟩, ⟨"B", 0, 0⟩] =
      [(1, ⟨"A", 0, 0⟩), (1, ⟨"B", 0, 0⟩)] := by
  refine ⟨?_, ?_⟩ <;> with_unfolding_all decide

/-- Claim C5 as amended: whenever `final_rankings` returns a table whose
first record differs from the sentinel value (score 0, opponent-strength
0), the printed numbers are exactly competition ranking of the printed
rows — tied records share one rank, the rank after a group advances by the
group's size, and the top rank is 1.  A table headed by the record (0, 0)
is instead printed starting from rank 0. -/
theorem final_rankings_competition_ranking (db : DB) (t : Nat)
    (res : List (Nat × FRow))
    (hres : final_rankings db t = some res)
    (hhead : ∀ pr, res.head? = some pr →
      (pr.2.points, pr.2.opp_win) ≠ ((0 : ℚ), (0 : ℚ))) :
    res = compRanks (res.map Prod.snd) := by
  unfold final_rankings at hres
  cases hu : updateLoop db (rankingPlayers db t) with
  | none => rw [hu] at hres; simp at hres
  | some db2 =>
    simp only [hu] at hres
    rw [Option.some_inj] at hres
    subst hres
    rw [rankList_map_snd]
    apply rankList_eq_compRanks_of_head
    intro r hr
    cases hl : final_standings db2 with
    | nil => rw [hl] at hr; simp at hr
    | cons a tl =>
      rw [hl] at hr
      have har : a = r := by simpa using hr
      subst har
      obtain ⟨n, hn⟩ := rankList_head a tl
      have h2 := hhead (n, a) (by rw [hl]; exact hn)
      simpa using h2

/-- Witness for the amended claim C5: a three-player table with two
players tied at the top is printed 1, 1, 3 — competition ranking with the
shared rank and the skipped number. -/
theorem final_rankings_competition_ranking_witness :
    ([(1, ⟨"A", 2, 1⟩), (1, ⟨"B", 2, 1⟩), (3, ⟨"C", 0, 2⟩)] : List (Nat × FRow)) =
      compRanks (([(1, ⟨"A", 2, 1⟩), (1, ⟨"B", 2, 1⟩), (3, ⟨"C", 0, 2⟩)] :
        List (Nat × FRow)).map Prod.snd) :=
  final_rankings_competition_ranking dbRanked 0 _
    (by with_unfolding_all decide)
    (by
      intro pr hpr
      rw [List.head?_cons] at hpr
      injection hpr with h3
      rw [← h3]
      with_unfolding_all decide)

/-- Claim C6: on an even pool `swiss_pairings` returns normally with no
bye assignment and exactly half as many pairs as players, and the
flattened pairs list the standings entries exactly once each, in standings
order: the pairs are pairwise disjoint and cover every player. -/
theorem swiss_pairings_even_partitions (db : DB) (t : Nat)
    (oracle : Nat → List SRow) (fuel : Nat)
    (heven : (player_standings db t).length % 2 = 0) :
    swiss_pairings db t oracle fuel =
      some (pairLoop db (player_standings db t), none, db) ∧
    (pairLoop db (player_standings db t)).length =
      (player_standings db t).length / 2 ∧
    pairFlat (pairLoop db (player_standings db t)) =
      (player_standings db t).map (fun r => (r.player_id, r.name)) := by
  obtain ⟨hlen, hflat⟩ := pairLoop_even db (player_standings db t).length
    (player_standings db t) le_rfl heven
  refine ⟨?_, hlen, hflat⟩
  unfold swiss_pairings
  rw [if_neg (by omega)]

/-- Witness for claim C6: four fresh players pair into two disjoint pairs
covering all four. -/
theorem swiss_pairings_even_partitions_witness :
    swiss_pairings dbEven 0 (fun _ => []) 1 =
      some (pairLoop dbEven (player_standings dbEven 0), none, dbEven) ∧
    (pairLoop dbEven (player_standings dbEven 0)).length =
      (player_standings dbEven 0).length / 2 ∧
    pairFlat (pairLoop dbEven (player_standings dbEven 0)) =
      (player_standings dbEven 0).map (fun r => (r.player_id, r.name)) :=
  swiss_pairings_even_partitions dbEven 0 (fun _ => []) 1
    (by with_unfolding_all decide)

/-- Counterexample to claim C8: with zero registered players — below the
claimed minimum of two — `swiss_pairings` returns normally with an empty
pairing list instead of failing; nothing is raised, and no
`ConfigurationError` is even defined in the code. -/
theorem swiss_pairings_no_count_check :
    swiss_pairings dbEmpty 0 (fun _ => []) 1 = some ([], none, dbEmpty) := by
  with_unfolding_all decide

/-- Claim C8 as amended: `swiss_pairings` performs no player-count
validation and defines no `ConfigurationError`: whenever fewer than two
players are registered and the call returns at all, it returns an empty
pairing list rather than failing (with one never-byed player it also
assigns that player the bye; with one already-byed player the bye loop
never returns). -/
theorem swiss_pairings_small_pool_returns_no_pairs (db : DB) (t : Nat)
    (oracle : Nat → List SRow) (fuel : Nat)
    (hsmall : (player_standings db t).length < 2)
    (res : List Pairing × Option SRow × DB)
    (hres : swiss_pairings db t oracle fuel = some res) :
    res.1 = [] := by
  unfold swiss_pairings at hres
  by_cases h0 : (player_standings db t).length % 2 = 0
  · rw [if_neg (by omega)] at hres
    rw [Option.some_inj] at hres
    rw [← hres]
    exact pairLoop_short db _ (by omega)
  · rw [if_pos (by omega)] at hres
    cases hb : byeLoop db oracle 0 fuel with
    | none => rw [hb] at hres; simp at hres
    | some bp =>
      simp only [hb] at hres
      rw [Option.some_inj] at hres
      rw [← hres]
      exact pairLoop_short _ _
        (le_trans (List.erase_sublist _ _).length_le (by omega))

/-- Witness for the amended claim C8: one never-byed registered player
yields a bye assignment and an empty pairing list, not an error. -/
theorem swiss_pairings_small_pool_returns_no_pairs_witness :
    (([], some (⟨1, "A", 0, 0⟩ : SRow), assign_bye dbSingle 1 0) :
        List Pairing × Option SRow × DB).1 = ([] : List Pairing) :=
  swiss_pairings_small_pool_returns_no_pairs dbSingle 0
    (fun _ => player_standings dbSingle 0) 1 (by with_unfolding_all decide) _
    (by with_unfolding_all decide)

/-- Claim C7: on an odd pool, once the bye retry loop settles on a row,
`swiss_pairings` returns (K-1)/2 pairs plus exactly that one bye
assignment.  The recipient's bye flag read back false — they had not
previously received a bye — the stored row gains exactly one point with
the bye flag set and the opponent history untouched, and (the stored ids
being distinct) the recipient appears in none of the returned pairs, which
cover the remaining K-1 players exactly once each. -/
theorem swiss_pairings_odd_bye (db : DB) (t : Nat) (oracle : Nat → List SRow)
    (fuel : Nat) (bp : SRow)
    (hodd : (player_standings db t).length % 2 = 1)
    (hperm : ∀ k, (oracle k).Perm (player_standings db t))
    (hsome : byeLoop db oracle 0 fuel = some bp)
    (hnodup : ((player_standings db t).map (fun r => r.player_id)).Nodup) :
    swiss_pairings db t oracle fuel =
      some (pairLoop (assign_bye db bp.player_id t)
              ((player_standings db t).erase bp),
            some bp, assign_bye db bp.player_id t) ∧
    fetch_bye db bp.player_id = false ∧
    (pairLoop (assign_bye db bp.player_id t)
        ((player_standings db t).erase bp)).length
      = ((player_standings db t).length - 1) / 2 ∧
    pairFlat (pairLoop (assign_bye db bp.player_id t)
        ((player_standings db t).erase bp))
      = ((player_standings db t).erase bp).map (fun r => (r.player_id, r.name)) ∧
    bp.player_id ∉ (pairFlat (pairLoop (assign_bye db bp.player_id t)
        ((player_standings db t).erase bp))).map Prod.fst ∧
    ∀ p ∈ db.players, p.player_id = bp.player_id → p.tournament_id = t →
      { p with bye := true, points := p.points + 1 } ∈
        (assign_bye db bp.player_id t).players := by
  have hmem : bp ∈ player_standings db t :=
    byeLoop_some_mem db oracle _ hperm fuel 0 bp hsome
  have herase : ((player_standings db t).erase bp).length
      = (player_standings db t).length - 1 := List.length_erase_of_mem hmem
  have heven : ((player_standings db t).erase bp).length % 2 = 0 := by
    rw [herase]
    omega
  obtain ⟨hlen, hflat⟩ := pairLoop_even (assign_bye db bp.player_id t) _
    ((player_standings db t).erase bp) le_rfl heven
  refine ⟨?_, byeLoop_some_bye_false db oracle fuel 0 bp hsome,
    by rw [hlen, herase], hflat, ?_, ?_⟩
  · unfold swiss_pairings
    rw [if_pos (by omega)]
    simp only [hsome]
  · rw [hflat]
    have hp2 : (player_standings db t).Perm (bp :: (player_standings db t).erase bp) :=
      List.perm_cons_erase hmem
    have hnd2 : ((bp :: (player_standings db t).erase bp).map
        (fun r => r.player_id)).Nodup :=
      (hp2.map (fun r => r.player_id)).nodup_iff.mp hnodup
    simp only [List.map_cons, List.nodup_cons] at hnd2
    simpa [List.map_map, Function.comp] using hnd2.1
  · intro p hp hpid hpt
    unfold assign_bye
    exact List.mem_map.mpr ⟨p, hp, by rw [if_pos ⟨hpid, hpt⟩]⟩

/-- Witness for claim C7 on three fresh players with an identity shuffle:
player A receives the bye and B and C form the single pair. -/
theorem swiss_pairings_odd_bye_witness :
    swiss_pairings dbOdd 0 (fun _ => player_standings dbOdd 0) 1 =
      some (pairLoop (assign_bye dbOdd 1 0)
              ((player_standings dbOdd 0).erase ⟨1, "A", 0, 0⟩),
            some ⟨1, "A", 0, 0⟩, assign_bye dbOdd 1 0) ∧
    fetch_bye dbOdd 1 = false ∧
    (pairLoop (assign_bye dbOdd 1 0)
        ((player_standings dbOdd 0).erase ⟨1, "A", 0, 0⟩)).length
      = ((player_standings dbOdd 0).length - 1) / 2 ∧
    pairFlat (pairLoop (assign_bye dbOdd 1 0)
        ((player_standings dbOdd 0).erase ⟨1, "A", 0, 0⟩))
      = ((player_standings dbOdd 0).erase ⟨1, "A", 0, 0⟩).map
          (fun r => (r.player_id, r.name)) ∧
    (1 : Nat) ∉ (pairFlat (pairLoop (assign_bye dbOdd 1 0)
        ((player_standings dbOdd 0).erase ⟨1, "A", 0, 0⟩))).map Prod.fst ∧
    ∀ p ∈ dbOdd.players, p.player_id = 1 → p.tournament_id = 0 →
      { p with bye := true, points := p.points + 1 } ∈
        (assign_bye dbOdd 1 0).players :=
  swiss_pairings_odd_bye dbOdd 0 (fun _ => player_standings dbOdd 0) 1
    ⟨1, "A", 0, 0⟩ (by with_unfolding_all decide) (fun _ => List.Perm.refl _)
    (by with_unfolding_all decide) (by with_unfolding_all decide)

/-- Claim C9: every engine operation preserves the invariant that a
player's `matches_played` equals the length of their opponent history:
registration inserts a fresh row with count 0 and an empty history, the
decisive branch of `report_match` adds one match and one history entry to
each participant, the draw branch touches neither field, and `assign_bye`
touches neither field. -/
theorem engine_ops_preserve_matchesInv (db : DB) (nm : String)
    (t w l pid : Nat) (d : Bool)
    (hinv : ∀ p ∈ db.players, matchesInv p) :
    (∀ p ∈ (register_player db nm t).players, matchesInv p) ∧
    (∀ p ∈ (report_match db w l d t).players, matchesInv p) ∧
    (∀ p ∈ (assign_bye db pid t).players, matchesInv p) := by
  refine ⟨?_, ?_, ?_⟩
  · intro p hp
    rcases List.mem_append.mp hp with h | h
    · exact hinv p h
    · rw [List.mem_singleton.mp h]
      rfl
  · intro p hp
    unfold report_match at hp
    cases d with
    | true =>
      simp only [Bool.not_true, if_neg] at hp
      obtain ⟨q, hq, rfl⟩ := List.mem_map.mp hp
      have h0 := hinv q hq
      unfold matchesInv at h0 ⊢
      split_ifs <;> simpa using h0
    | false =>
      simp only [Bool.not_false, if_pos] at hp
      obtain ⟨q1, hq1, rfl⟩ := List.mem_map.mp hp
      obtain ⟨q0, hq0, rfl⟩ := List.mem_map.mp hq1
      have h0 := hinv q0 hq0
      unfold matchesInv at h0 ⊢
      split_ifs <;> simp_all
  · intro p hp
    unfold assign_bye at hp
    obtain ⟨q, hq, rfl⟩ := List.mem_map.mp hp
    have h0 := hinv q hq
    unfold matchesInv at h0 ⊢
    split_ifs <;> simpa using h0

/-- Witness for claim C9 on two fresh players: the invariant survives a
registration, a decisive report between them, and a bye assignment. -/
theorem engine_ops_preserve_matchesInv_witness :
    (∀ p ∈ (register_player dbDraw "C" 0).players, matchesInv p) ∧
    (∀ p ∈ (report_match dbDraw 1 2 false 0).players, matchesInv p) ∧
    (∀ p ∈ (assign_bye dbDraw 1 0).players, matchesInv p) :=
  engine_ops_preserve_matchesInv dbDraw "C" 0 1 2 1 false
    (by simp [dbDraw, matchesInv])

/-- Claim C10: the standings that `final_rankings` ranks come from every
stored player row, with no tournament restriction: ranking tournament 1 of
a storage state that also holds tournament 2's player Q1 prints Q1 too —
here at the top of the table with its stale opponent-strength 7, untouched
because the update pass alone is scoped to tournament 1, whose worklist
holds exactly P1 and P2. -/
theorem final_rankings_unscoped_standings :
    final_rankings dbTwoTournaments 1 =
      some [(1, ⟨"Q1", 5, 7⟩), (2, ⟨"P1", 1, 0⟩), (3, ⟨"P2", 0, 1⟩)] ∧
    (∀ p ∈ dbTwoTournaments.players, p.name = "Q1" → p.tournament_id = 2) ∧
    rankingPlayers dbTwoTournaments 1 = [(1, [2]), (2, [1])] := by
  refine ⟨?_, ?_, ?_⟩ <;> with_unfolding_all decide

end Tournament
